import Mathlib

set_option maxRecDepth 8000

/-!
Shallow embedding of `src/py7st2.py`: an EMA breakout screener built on
pandas.  Finite float64 values are idealized as exact rationals; the IEEE
special values NaN and the two infinities are modelled explicitly, since
the program's `pd.notna` gate and its formatting branches distinguish them.
-/

/-- A float64 value: a finite number (exact rational, signed zeros
collapsed) or one of the special values. -/
inductive PFloat where
  | nan
  | inf
  | ninf
  | finite (q : ℚ)
deriving DecidableEq, Repr

def pfIsNan : PFloat → Bool
  | .nan => true
  | _ => false

def pfIsFinite : PFloat → Bool
  | .finite _ => true
  | _ => false

/-- `pd.notna` on a scalar: everything except NaN counts as present, so the
infinities pass. -/
def pdNotna (v : PFloat) : Bool := !pfIsNan v

def pfNeg : PFloat → PFloat
  | .nan => .nan
  | .inf => .ninf
  | .ninf => .inf
  | .finite q => .finite (-q)

def pfAdd : PFloat → PFloat → PFloat
  | .nan, _ => .nan
  | _, .nan => .nan
  | .inf, .ninf => .nan
  | .ninf, .inf => .nan
  | .inf, _ => .inf
  | _, .inf => .inf
  | .ninf, _ => .ninf
  | _, .ninf => .ninf
  | .finite a, .finite b => .finite (a + b)

def pfSub (a b : PFloat) : PFloat := pfAdd a (pfNeg b)

def pfMul : PFloat → PFloat → PFloat
  | .nan, _ => .nan
  | _, .nan => .nan
  | .inf, .inf => .inf
  | .inf, .ninf => .ninf
  | .ninf, .inf => .ninf
  | .ninf, .ninf => .inf
  | .inf, .finite b => if b = 0 then .nan else if 0 < b then .inf else .ninf
  | .finite a, .inf => if a = 0 then .nan else if 0 < a then .inf else .ninf
  | .ninf, .finite b => if b = 0 then .nan else if 0 < b then .ninf else .inf
  | .finite a, .ninf => if a = 0 then .nan else if 0 < a then .ninf else .inf
  | .finite a, .finite b => .finite (a * b)

def pfDiv : PFloat → PFloat → PFloat
  | .nan, _ => .nan
  | _, .nan => .nan
  | .inf, .inf => .nan
  | .inf, .ninf => .nan
  | .ninf, .inf => .nan
  | .ninf, .ninf => .nan
  | .inf, .finite b => if 0 ≤ b then .inf else .ninf
  | .ninf, .finite b => if 0 ≤ b then .ninf else .inf
  | .finite _, .inf => .finite 0
  | .finite _, .ninf => .finite 0
  | .finite a, .finite b =>
      if b = 0 then (if a = 0 then .nan else if 0 < a then .inf else .ninf)
      else .finite (a / b)

/-- IEEE equality: NaN compares unequal to everything, including itself. -/
def pfBEq : PFloat → PFloat → Bool
  | .inf, .inf => true
  | .ninf, .ninf => true
  | .finite a, .finite b => decide (a = b)
  | _, _ => false

/-- IEEE strict greater-than: any comparison involving NaN is false. -/
def pfGt : PFloat → PFloat → Bool
  | .nan, _ => false
  | _, .nan => false
  | .inf, .inf => false
  | .inf, _ => true
  | .ninf, _ => false
  | .finite _, .inf => false
  | .finite _, .ninf => true
  | .finite a, .finite b => decide (b < a)

/-- IEEE less-or-equal: any comparison involving NaN is false. -/
def pfLeB : PFloat → PFloat → Bool
  | .nan, _ => false
  | _, .nan => false
  | .inf, .inf => true
  | .inf, _ => false
  | .ninf, _ => true
  | .finite _, .inf => true
  | .finite _, .ninf => false
  | .finite a, .finite b => decide (a ≤ b)

/-- Insert a comma after every third digit; the input is the reversed digit
list of the integer part. -/
def insertCommas : List Char → List Char
  | a :: b :: c :: d :: rest => a :: b :: c :: ',' :: insertCommas (d :: rest)
  | l => l

/-- Thousands-separate a plain digit string. -/
def groupDigits (s : String) : String :=
  String.mk (insertCommas s.toList.reverse).reverse

def padZeros (s : String) (len : ℕ) : String :=
  String.mk (List.replicate (len - s.length) '0') ++ s

/-- Python fixed-point formatting of a finite value at `prec` decimals:
round `|q| * 10^prec` half-to-even (computed on the numerator and
denominator, so `|q| * 10^prec = a / d` exactly), keep the sign of the
value, and optionally thousands-group the integer part. -/
def fmtFixedQ (comma : Bool) (prec : ℕ) (q : ℚ) : String :=
  let a : ℕ := q.num.natAbs * 10 ^ prec
  let d : ℕ := q.den
  let m : ℕ := a / d
  let r : ℕ := a % d
  let n : ℕ :=
    if 2 * r < d then m
    else if d < 2 * r then m + 1
    else if m % 2 = 0 then m else m + 1
  let ip : ℕ := n / 10 ^ prec
  let fp : ℕ := n % 10 ^ prec
  let ipStr := if comma then groupDigits (toString ip) else toString ip
  let sign := if q.num < 0 then "-" else ""
  if prec = 0 then sign ++ ipStr
  else sign ++ ipStr ++ "." ++ padZeros (toString fp) prec

/-- Fixed-point formatting of a float64 value; Python renders the special
values as "nan", "inf" and "-inf" under every precision and flag. -/
def fmtFixed (comma : Bool) (prec : ℕ) : PFloat → String
  | .nan => "nan"
  | .inf => "inf"
  | .ninf => "-inf"
  | .finite q => fmtFixedQ comma prec q

/-- Lines 84 and 93: the f-string `f"{x:.2f}%"` applied to a divergence. -/
def pctFormat (v : PFloat) : String := fmtFixed false 2 v ++ "%"

/-- A Python value as seen by `price_format`: a number (`int` or `float`,
including the non-finite floats, which satisfy the `isinstance` test) or
any non-numeric value. -/
inductive PyVal where
  | num (v : PFloat)
  | other
deriving DecidableEq, Repr

/-- Lines 9-25, `price_format`: magnitude-adaptive display precision with
thousands grouping.  The decimal threshold literals are idealized as exact
rationals. -/
def price_format : PyVal → String
  | .num v =>
    if pfGt v (.finite (1/10)) then fmtFixed true 2 v
    else if pfGt v (.finite (1/100)) then fmtFixed true 4 v
    else if pfGt v (.finite (1/10000)) then fmtFixed true 6 v
    else if pfGt v (.finite (1/1000000)) then fmtFixed true 8 v
    else if pfGt v (.finite (1/100000000)) then fmtFixed true 10 v
    else if pfGt v (.finite (1/10000000000)) then fmtFixed true 12 v
    else fmtFixed true 15 v
  | .other => "N/A"

/-- Spec-side EMA recursion, written from spec.md section 4.3 for the
refinement claim: `ema[i] = (closes[i] - ema[i-1]) * alpha + ema[i-1]`. -/
def emaSpecAux (α : ℚ) (prev : ℚ) : List ℚ → List ℚ
  | [] => []
  | x :: xs =>
    let y := (x - prev) * α + prev
    y :: emaSpecAux α y xs

/-- Spec-side EMA: seeded with the first close. -/
def emaSpec (α : ℚ) : List ℚ → List ℚ
  | [] => []
  | x :: xs => x :: emaSpecAux α x xs

/-- One step of the pandas EWM kernel (window/aggregations.pyx) with
`adjust=False` and `ignore_na=False`; the state is the pair
`(weighted_avg, old_wt)`.  On an observation the kernel skips the update
when the carried average compares IEEE-equal to the new value, otherwise it
renormalizes by the accumulated weight, and then resets `old_wt` to 1. -/
def ewmStep (α : ℚ) : PFloat × ℚ → PFloat → PFloat × ℚ
  | (wavg, oldwt), cur =>
    if pfIsNan wavg then
      if pfIsNan cur then (wavg, oldwt) else (cur, oldwt)
    else
      let ow := oldwt * (1 - α)
      if pfIsNan cur then (wavg, ow)
      else if pfBEq wavg cur then (wavg, 1)
      else
        (pfDiv (pfAdd (pfMul (.finite ow) wavg) (pfMul (.finite α) cur))
           (.finite (ow + α)), 1)

def ewmAux (α : ℚ) (st : PFloat × ℚ) : List PFloat → List PFloat
  | [] => []
  | c :: cs =>
    let st2 := ewmStep α st c
    st2.1 :: ewmAux α st2 cs

/-- Pandas `Series.ewm(span, adjust=False).mean()` with
`alpha = 2/(span+1)` passed directly as `α`.  With the default
`min_periods=0` the output at every position is the carried weighted
average, which is NaN exactly until the first observation. -/
def ewmAdjustFalse (α : ℚ) : List PFloat → List PFloat
  | [] => []
  | v :: vs => v :: ewmAux α (v, 1) vs

/-- One element of the 24h-ticker response, with its volume field viewed
after the line-41 `pd.to_numeric(..., errors='coerce')`: `none` models a
volume that fails numeric coercion and becomes NaN. -/
structure Ticker where
  symbol : String
  volume : Option ℚ
deriving DecidableEq, Repr

def volLE (a b : Ticker) : Prop := a.volume.getD 0 ≤ b.volume.getD 0

instance : DecidableRel volLE := fun a b =>
  inferInstanceAs (Decidable (a.volume.getD 0 ≤ b.volume.getD 0))

/-- Python's `str.endswith`: the suffix test on the code-point sequences. -/
def strEndsWith (s suffix : String) : Bool :=
  List.isSuffixOf suffix.data s.data

/-- Line 40: keep only the tickers whose symbol ends in "USDT". -/
def usdtFiltered (tickers : List Ticker) : List Ticker :=
  tickers.filter (fun t => strEndsWith t.symbol "USDT")

/-- The filtered tickers whose volume coerces successfully. -/
def okEntries (tickers : List Ticker) : List Ticker :=
  (usdtFiltered tickers).filter (fun t => t.volume.isSome)

/-- The filtered tickers whose volume fails coercion (NaN volume). -/
def badEntries (tickers : List Ticker) : List Ticker :=
  (usdtFiltered tickers).filter (fun t => t.volume.isNone)

/-- Line 42, `df.sort_values('volume', ascending=False)`: pandas nargsort
with `ascending=False` first reverses the non-NaN values and their indices,
takes a stable ascending argsort (numpy's sort in its stable small-array
regime), and reverses the resulting indexer again — this double reversal
makes the descending sort stable by original input order on ties.  The NaN
entries are appended at the end in original order (`na_position='last'`). -/
def sortedTickers (tickers : List Ticker) : List Ticker :=
  (List.insertionSort volLE ((okEntries tickers).reverse)).reverse ++ badEntries tickers

/-- Lines 36-44: filter to the USDT quote, coerce volumes, sort descending
by volume, take the top 500 and return their symbols. -/
def get_top_500_usdt_pairs_by_volume (tickers : List Ticker) : List String :=
  ((sortedTickers tickers).take 500).map (fun t => t.symbol)

/-- One kline of the historical-candles response, with its close field
viewed after parsing: `some v` when the close string parses to the float
`v`, `none` when the line-69 `pd.to_numeric` (no `errors='coerce'`) would
raise on it.  The remaining tuple fields are never consumed downstream. -/
structure KlineRow where
  close : Option PFloat
deriving DecidableEq, Repr

/-- Lines 55-77: a non-empty list response becomes a frame and its close
column is parsed; one unparseable close makes line 69 raise, the handler
returns an empty frame, and the whole series is lost. -/
def get_historical_data (klines : List KlineRow) : List PFloat :=
  if 0 < klines.length then
    if klines.all (fun k => k.close.isSome) then klines.filterMap (fun k => k.close)
    else []
  else []

/-- A row of the per-symbol candle frame together with the columns the EMA
stages add; `none` means the column has not been created yet.
`diff34val` and `diff102val` record the numeric divergence computed by
line 83 resp. 92 before line 84 resp. 93 replaces the column with its
formatted string; both representations are kept side by side so the
underlying number stays recoverable. -/
structure PRow where
  close : PFloat
  ema34 : Option PFloat := none
  diff34val : Option PFloat := none
  diff34 : Option String := none
  status34 : Option String := none
  ema102 : Option PFloat := none
  diff102val : Option PFloat := none
  diff102 : Option String := none
  status102 : Option String := none
deriving DecidableEq, Repr

/-- The frame produced by `get_historical_data`, restricted to the close
column (the only one read downstream). -/
def mkFrame (closes : List PFloat) : List PRow :=
  closes.map (fun c => { close := c })

/-- `pd.notna` of an optional column value; a missing column is absent. -/
def optNotna (o : Option PFloat) : Bool := o.any (fun v => pdNotna v)

/-- `alpha = 2/(span+1)` for span 34. -/
def alpha34 : ℚ := 2 / (34 + 1)

/-- `alpha = 2/(span+1)` for span 102. -/
def alpha102 : ℚ := 2 / (102 + 1)

/-- Line 81: `df['EMA_34'] = df['close'].ewm(span=34, adjust=False).mean()`. -/
def setEma34 (df : List PRow) : List PRow :=
  List.zipWith (fun r e => { r with ema34 := some e }) df
    (ewmAdjustFalse alpha34 (df.map (fun r => r.close)))

/-- Line 82: `df.dropna(subset=['close', 'EMA_34'])` drops the rows where
either value is NaN; infinities are kept. -/
def dropna34 (df : List PRow) : List PRow :=
  df.filter (fun r => pdNotna r.close && optNotna r.ema34)

/-- Lines 83-84: `(close - EMA_34) / EMA_34 * 100`, then the column is
replaced by its `f"{x:.2f}%"` string. -/
def setDiff34 (df : List PRow) : List PRow :=
  df.map (fun r =>
    let v := pfMul (pfDiv (pfSub r.close (r.ema34.getD .nan)) (r.ema34.getD .nan))
      (.finite 100)
    { r with diff34val := some v, diff34 := some (pctFormat v) })

/-- Line 85: breakup when close is strictly above the EMA, else breakdown. -/
def setStatus34 (df : List PRow) : List PRow :=
  df.map (fun r =>
    let s := if pfGt r.close (r.ema34.getD .nan) then "breakup" else "breakdown"
    { r with status34 := some s })

/-- Lines 79-86, the functional content of `calculate_ema_and_breakout`. -/
def calculate_ema_and_breakout (df : List PRow) : List PRow :=
  setStatus34 (setDiff34 (dropna34 (setEma34 df)))

/-- Line 90: the 102-span EMA column. -/
def setEma102 (df : List PRow) : List PRow :=
  List.zipWith (fun r e => { r with ema102 := some e }) df
    (ewmAdjustFalse alpha102 (df.map (fun r => r.close)))

/-- Line 91: `df.dropna(subset=['close', 'EMA_102'])`. -/
def dropna102 (df : List PRow) : List PRow :=
  df.filter (fun r => pdNotna r.close && optNotna r.ema102)

/-- Lines 92-93: the 102-window divergence and its formatted string. -/
def setDiff102 (df : List PRow) : List PRow :=
  df.map (fun r =>
    let v := pfMul (pfDiv (pfSub r.close (r.ema102.getD .nan)) (r.ema102.getD .nan))
      (.finite 100)
    { r with diff102val := some v, diff102 := some (pctFormat v) })

/-- Line 94: the 102-window breakout state. -/
def setStatus102 (df : List PRow) : List PRow :=
  df.map (fun r =>
    let s := if pfGt r.close (r.ema102.getD .nan) then "breakup" else "breakdown"
    { r with status102 := some s })

/-- Lines 88-95, the functional content of `calculate_ema102_and_breakout`. -/
def calculate_ema102_and_breakout (df : List PRow) : List PRow :=
  setStatus102 (setDiff102 (dropna102 (setEma102 df)))

/-- The Python object store: frames addressed by slot, so that in-place
column writes and fresh allocations stay distinguishable. -/
abbrev Heap := List (List PRow)

/-- Lines 79-86 with the object store explicit: the caller's frame lives in
slot `i`; line 80's `df.copy()` allocates a fresh slot, the in-place column
writes of lines 81 and 83-85 hit the frame the local name is bound to, and
line 82's `dropna` allocates another fresh frame that the name is rebound
to.  Returns the store and the slot of the returned frame. -/
def calculate_ema_and_breakout_heap (h : Heap) (i : ℕ) : Heap × ℕ :=
  let dfin := h.getD i []
  let j := h.length
  let h1 := h ++ [dfin]
  let h2 := h1.set j (setEma34 (h1.getD j []))
  let k := h2.length
  let h3 := h2 ++ [dropna34 (h2.getD j [])]
  let h4 := h3.set k (setDiff34 (h3.getD k []))
  let h5 := h4.set k (setStatus34 (h4.getD k []))
  (h5, k)

/-- Lines 88-95 with the object store explicit, as for the 34-window stage. -/
def calculate_ema102_and_breakout_heap (h : Heap) (i : ℕ) : Heap × ℕ :=
  let dfin := h.getD i []
  let j := h.length
  let h1 := h ++ [dfin]
  let h2 := h1.set j (setEma102 (h1.getD j []))
  let k := h2.length
  let h3 := h2 ++ [dropna102 (h2.getD j [])]
  let h4 := h3.set k (setDiff102 (h3.getD k []))
  let h5 := h4.set k (setStatus102 (h4.getD k []))
  (h5, k)

/-- One row of the aggregated table, lines 117-125 and 133-134, before the
display formatting of lines 138-139.  `DIFF34val` is the numeric divergence
carried alongside its formatted string (see `PRow`). -/
structure OutRow where
  COIN : String
  CLOSE : PFloat
  STATUS34 : String
  DIFF34 : String
  DIFF34val : PFloat
  LINE102 : PFloat
  STATUS102 : String
  DIFF102 : String
deriving DecidableEq, Repr

/-- Lines 104-125, one loop body of `fetch_and_process_data`: skip the
symbol when its frame is empty, run both EMA stages, and emit one row when
both frames are non-empty and both latest EMA values pass the `pd.notna`
gate; `none` is a silent skip, never an error. -/
def process_symbol (symbol : String) (df : List PRow) : Option OutRow :=
  if df.isEmpty then none
  else
    let df34 := calculate_ema_and_breakout df
    let df102 := calculate_ema102_and_breakout df
    if df34.isEmpty || df102.isEmpty then none
    else
      match df34.getLast?, df102.getLast? with
      | some l34, some l102 =>
        if optNotna l34.ema34 && optNotna l102.ema102 then
          some { COIN := symbol
                 CLOSE := l34.close
                 STATUS34 := l34.status34.getD ""
                 DIFF34 := l34.diff34.getD ""
                 DIFF34val := l34.diff34val.getD .nan
                 LINE102 := l102.ema102.getD .nan
                 STATUS102 := l102.status102.getD ""
                 DIFF102 := l102.diff102.getD "" }
        else none
      | _, _ => none

/-- A row of the final table after the lines-138/139 display formatting of
the CLOSE and LINE102 columns. -/
structure FRow where
  COIN : String
  CLOSE : String
  STATUS34 : String
  DIFF34 : String
  DIFF34val : PFloat
  LINE102 : String
  STATUS102 : String
  DIFF102 : String
deriving DecidableEq, Repr

/-- Lines 138-139: `price_format` applied to the CLOSE and LINE102 columns. -/
def formatRow (r : OutRow) : FRow :=
  { COIN := r.COIN
    CLOSE := price_format (.num r.CLOSE)
    STATUS34 := r.STATUS34
    DIFF34 := r.DIFF34
    DIFF34val := r.DIFF34val
    LINE102 := price_format (.num r.LINE102)
    STATUS102 := r.STATUS102
    DIFF102 := r.DIFF102 }

/-- Lines 98-141, the whole pass: select the universe, process each symbol
in order collecting at most one row per loop iteration, then format the
price columns.  `hist` abstracts the network, giving the kline response for
each requested symbol. -/
def fetch_and_process_data (tickers : List Ticker) (hist : String → List KlineRow) :
    List FRow :=
  ((get_top_500_usdt_pairs_by_volume tickers).filterMap
    (fun s => process_symbol s (mkFrame (get_historical_data (hist s))))).map formatRow

/-- Lexicographic order on code points: exactly how Python compares two
strings, hence how pandas sorts an object-dtype column. -/
def charListLt : List Char → List Char → Bool
  | _, [] => false
  | [], _ :: _ => true
  | a :: as, b :: bs =>
    if a.toNat < b.toNat then true
    else if b.toNat < a.toNat then false
    else charListLt as bs

/-- Plain string order on the formatted `%DIFF34` column, the comparison
`sort_values` performs on an object-dtype column. -/
def rowStrLE (a b : FRow) : Prop := charListLt b.DIFF34.data a.DIFF34.data = false

instance : DecidableRel rowStrLE := fun a b =>
  inferInstanceAs (Decidable (charListLt b.DIFF34.data a.DIFF34.data = false))

/-- Lines 172-177: keep the rows in breakup state on the short window and
sort ascending by the `%DIFF34` column, which by now holds the formatted
strings, so pandas compares them as plain strings (stable ascending
argsort, numpy's sort in its stable small-array regime). -/
def main_table (rows : List FRow) : List FRow :=
  List.insertionSort rowStrLE (rows.filter (fun r => r.STATUS34 == "breakup"))

/-- A breakup row whose divergence is 10 percent, its `%DIFF34` string
being exactly the line-84 formatting of that number. -/
def rowTen : FRow :=
  { COIN := "AUSDT"
    CLOSE := "1.00"
    STATUS34 := "breakup"
    DIFF34 := "10.00%"
    DIFF34val := .finite 10
    LINE102 := "1.00"
    STATUS102 := "breakup"
    DIFF102 := "10.00%" }

/-- A breakup row whose divergence is 2 percent. -/
def rowTwo : FRow :=
  { COIN := "BUSDT"
    CLOSE := "1.00"
    STATUS34 := "breakup"
    DIFF34 := "2.00%"
    DIFF34val := .finite 2
    LINE102 := "1.00"
    STATUS102 := "breakup"
    DIFF102 := "2.00%" }

/-- A ticker whose volume string fails numeric coercion. -/
def tickNaN : Ticker := { symbol := "AUSDT", volume := none }

/-!  Theorems.  Each claim of the specification gets one theorem below;
shared helper lemmas come first. -/

theorem dot_mem_fmtFixedQ (comma : Bool) (prec : ℕ) (hp : prec ≠ 0) (q : ℚ) :
    '.' ∈ (fmtFixedQ comma prec q).data := by
  have hdot : '.' ∈ ".".data := by decide
  unfold fmtFixedQ
  simp only [if_neg hp, String.data_append, List.mem_append]
  exact Or.inl (Or.inr hdot)

theorem fmtFixedQ_ne_NA (comma : Bool) (prec : ℕ) (hp : prec ≠ 0) (q : ℚ) :
    fmtFixedQ comma prec q ≠ "N/A" := by
  intro h
  have hmem := dot_mem_fmtFixedQ comma prec hp q
  rw [h] at hmem
  exact absurd hmem (by decide)

/-- Claim C4 (amended): `price_format` returns "N/A" exactly for the
inputs that are not numbers at all; NaN and the infinities are floats, so
they pass the `isinstance` test and come out as "nan" (via the final
15-decimal branch), "inf" (via the 2-decimal branch, since inf > 0.1) and
"-inf" (via the final branch) instead of "N/A". -/
theorem price_format_na_iff_nonnumeric :
    price_format (PyVal.num PFloat.nan) = "nan"
    ∧ price_format (PyVal.num PFloat.inf) = "inf"
    ∧ price_format (PyVal.num PFloat.ninf) = "-inf"
    ∧ ∀ v : PyVal, price_format v = "N/A" ↔ v = PyVal.other := by
  refine ⟨by decide, by decide, by decide, ?_⟩
  intro v
  constructor
  · intro h
    cases v with
    | other => rfl
    | num f =>
      exfalso
      cases f with
      | nan => exact absurd h (by decide)
      | inf => exact absurd h (by decide)
      | ninf => exact absurd h (by decide)
      | finite q =>
        revert h
        simp only [price_format, fmtFixed]
        split_ifs <;> exact fun h => fmtFixedQ_ne_NA _ _ (by decide) q h
  · intro h
    subst h
    rfl

/-- Claim C4 counterexample: `float('nan')` is an instance of `float`,
falls through every magnitude branch of `price_format`, and is formatted
as the string "nan", not the literal "N/A" the claim requires. -/
theorem price_format_nan_not_na :
    price_format (PyVal.num PFloat.nan) = "nan" ∧ "nan" ≠ "N/A" := by decide

/-- Claim C6 (amended): when any close value of a non-empty response fails
numeric parsing, line 69 raises inside the handler and the whole series is
returned empty; only a response whose closes all parse is returned, and
then in full. -/
theorem close_parse_failure_empties_series (klines : List KlineRow) :
    get_historical_data klines
      = if klines.all (fun k => k.close.isSome)
        then klines.filterMap (fun k => k.close)
        else [] := by
  cases klines with
  | nil => simp [get_historical_data]
  | cons k ks => simp [get_historical_data]

/-- Claim C6 counterexample: a two-candle response whose second close is
unparseable loses the parseable first candle too: the code returns the
empty series where the claim requires the remaining candle. -/
theorem single_bad_close_drops_all :
    get_historical_data [⟨some (PFloat.finite 1)⟩, ⟨none⟩] = []
    ∧ List.filterMap (fun k => k.close)
        [(⟨some (PFloat.finite 1)⟩ : KlineRow), ⟨none⟩] = [PFloat.finite 1]
    ∧ ([] : List PFloat) ≠ [PFloat.finite 1] := by decide

/-- Claim C2: at the failing input of two breakup rows whose divergences
are 10 and 2 percent (each `%DIFF34` string exactly the line-84 formatting
of its number), the final sort of line 174 compares the formatted strings,
so the 10 percent row precedes the 2 percent row and the table is not
ordered ascending by the underlying numeric divergence. -/
theorem final_sort_is_lexicographic_at_failing_input :
    rowTen.DIFF34 = pctFormat (PFloat.finite 10)
    ∧ rowTwo.DIFF34 = pctFormat (PFloat.finite 2)
    ∧ main_table [rowTen, rowTwo] = [rowTen, rowTwo]
    ∧ pfLeB rowTen.DIFF34val rowTwo.DIFF34val = false := by decide

/-- Claim C3 (amended): a symbol's row reaches the table only when the
last rows of both EMA frames pass the line-115 `pd.notna` gate — non-NaN,
not finite: infinities pass `pd.notna` and are not excluded.  A symbol
failing the gate yields `none`, a silent skip rather than an error. -/
theorem notna_gate_of_included (s : String) (df : List PRow) (r : OutRow)
    (h : process_symbol s df = some r) :
    ∃ l34 l102,
      (calculate_ema_and_breakout df).getLast? = some l34
      ∧ (calculate_ema102_and_breakout df).getLast? = some l102
      ∧ optNotna l34.ema34 = true
      ∧ optNotna l102.ema102 = true
      ∧ r.LINE102 = l102.ema102.getD PFloat.nan := by
  simp only [process_symbol] at h
  split at h
  · exact absurd h (by simp)
  · split at h
    · exact absurd h (by simp)
    · split at h
      case _ l34 l102 h34 h102 =>
        split at h
        case _ hgate =>
          obtain rfl := (Option.some.injEq _ _).mp h
          rw [Bool.and_eq_true] at hgate
          exact ⟨l34, l102, h34, h102, hgate.1, hgate.2, rfl⟩
        case _ => exact absurd h (by simp)
      case _ => exact absurd h (by simp)

theorem notna_gate_of_included_witness :
    process_symbol "AUSDT" (mkFrame [PFloat.finite 1])
        = some ⟨"AUSDT", PFloat.finite 1, "breakdown", "0.00%", PFloat.finite 0,
                PFloat.finite 1, "breakdown", "0.00%"⟩
    ∧ ∃ l34 l102,
        (calculate_ema_and_breakout (mkFrame [PFloat.finite 1])).getLast? = some l34
        ∧ (calculate_ema102_and_breakout (mkFrame [PFloat.finite 1])).getLast? = some l102
        ∧ optNotna l34.ema34 = true
        ∧ optNotna l102.ema102 = true
        ∧ (⟨"AUSDT", PFloat.finite 1, "breakdown", "0.00%", PFloat.finite 0,
            PFloat.finite 1, "breakdown", "0.00%"⟩ : OutRow).LINE102
            = l102.ema102.getD PFloat.nan :=
  ⟨of_decide_eq_true (by with_unfolding_all rfl),
   notna_gate_of_included "AUSDT" (mkFrame [PFloat.finite 1])
     ⟨"AUSDT", PFloat.finite 1, "breakdown", "0.00%", PFloat.finite 0,
      PFloat.finite 1, "breakdown", "0.00%"⟩
     (of_decide_eq_true (by with_unfolding_all rfl))⟩

/-- Claim C3 counterexample: a symbol whose single candle has close `inf`
(for example a close string that overflows float parsing) is included: its
EMA values are `inf` on both windows, `pd.notna inf` holds, and the row is
emitted with an infinite `LINE102` — so inclusion does not imply the last
EMA values are finite. -/
theorem infinite_ema_row_included :
    process_symbol "XUSDT" (mkFrame [PFloat.inf])
        = some ⟨"XUSDT", PFloat.inf, "breakdown", "nan%", PFloat.nan,
                PFloat.inf, "breakdown", "nan%"⟩
    ∧ ((calculate_ema_and_breakout (mkFrame [PFloat.inf])).getLast?.bind
        (fun l => l.ema34)) = some PFloat.inf
    ∧ ((calculate_ema102_and_breakout (mkFrame [PFloat.inf])).getLast?.bind
        (fun l => l.ema102)) = some PFloat.inf
    ∧ pfIsFinite PFloat.inf = false :=
  of_decide_eq_true (by with_unfolding_all rfl)

theorem ewmStep_finite (α prev x : ℚ) :
    ewmStep α (PFloat.finite prev, 1) (PFloat.finite x)
      = (PFloat.finite ((x - prev) * α + prev), 1) := by
  by_cases h : prev = x
  · subst h
    simp only [ewmStep, pfIsNan, pfBEq, Bool.false_eq_true, if_false, decide_eq_true_eq,
      if_pos rfl, if_true, Prod.mk.injEq]
    refine ⟨?_, trivial⟩
    congr 1
    ring
  · simp only [ewmStep, pfIsNan, pfBEq, Bool.false_eq_true, if_false, decide_eq_true_eq,
      if_neg h, pfMul, pfAdd, pfDiv]
    have hden : 1 * (1 - α) + α = 1 := by ring
    rw [hden]
    simp only [one_ne_zero, if_false, Prod.mk.injEq]
    refine ⟨?_, trivial⟩
    congr 1
    rw [div_one]
    ring

theorem ewmAux_map_finite (α : ℚ) (xs : List ℚ) : ∀ prev : ℚ,
    ewmAux α (PFloat.finite prev, 1) (xs.map PFloat.finite)
      = (emaSpecAux α prev xs).map PFloat.finite := by
  induction xs with
  | nil => intro prev; rfl
  | cons x xs ih =>
    intro prev
    simp only [List.map_cons, ewmAux, emaSpecAux, ewmStep_finite]
    exact congrArg _ (ih _)

/-- On a sequence of finite closes, the pandas EWM kernel computes exactly
the specification's seeded recursion. -/
theorem ewm_eq_emaSpec (α : ℚ) (closes : List ℚ) :
    ewmAdjustFalse α (closes.map PFloat.finite)
      = (emaSpec α closes).map PFloat.finite := by
  cases closes with
  | nil => rfl
  | cons c cs =>
    simp only [List.map_cons, ewmAdjustFalse, emaSpec, ewmAux_map_finite]

theorem emaSpecAux_length (α : ℚ) (xs : List ℚ) : ∀ prev : ℚ,
    (emaSpecAux α prev xs).length = xs.length := by
  induction xs with
  | nil => intro prev; rfl
  | cons x xs ih => intro prev; simp [emaSpecAux, ih]

theorem emaSpec_length (α : ℚ) (closes : List ℚ) :
    (emaSpec α closes).length = closes.length := by
  cases closes with
  | nil => rfl
  | cons c cs => simp [emaSpec, emaSpecAux_length]

theorem emaSpecAux_getD (α : ℚ) (xs : List ℚ) : ∀ (prev : ℚ) (i : ℕ),
    i + 1 < xs.length →
    (emaSpecAux α prev xs).getD (i + 1) 0
      = (xs.getD (i + 1) 0 - (emaSpecAux α prev xs).getD i 0) * α
        + (emaSpecAux α prev xs).getD i 0 := by
  induction xs with
  | nil => intro prev i h; simp at h
  | cons x xs ih =>
    intro prev i h
    cases i with
    | zero =>
      cases xs with
      | nil => simp at h
      | cons z zs => simp [emaSpecAux]
    | succ n =>
      have h' : n + 1 < xs.length := by simpa using h
      simpa [emaSpecAux] using ih ((x - prev) * α + prev) n h'

theorem emaSpec_getD (α : ℚ) (closes : List ℚ) (i : ℕ)
    (h1 : 1 ≤ i) (h2 : i < closes.length) :
    (emaSpec α closes).getD i 0
      = (closes.getD i 0 - (emaSpec α closes).getD (i - 1) 0) * α
        + (emaSpec α closes).getD (i - 1) 0 := by
  obtain ⟨n, rfl⟩ : ∃ n, i = n + 1 := ⟨i - 1, (Nat.succ_pred_eq_of_pos h1).symm⟩
  cases closes with
  | nil => simp at h2
  | cons c cs =>
    cases n with
    | zero =>
      cases cs with
      | nil => simp at h2
      | cons z zs => simp [emaSpec, emaSpecAux]
    | succ m =>
      have h' : m + 1 < cs.length := by simpa using h2
      simpa [emaSpec] using emaSpecAux_getD α cs c m h'

/-- Claim C1: for every period at least 1 and every non-empty close
sequence, the pandas EWM (`adjust=False`, `alpha = 2/(period+1)`) output
refines the spec recursion: it equals the spec-side EMA pointwise, has the
input's length, starts at the first close, and obeys
`ema[i] = (closes[i] - ema[i-1]) * alpha + ema[i-1]` for `i ≥ 1`. -/
theorem ema_satisfies_spec_recursion (closes : List ℚ) (p : ℕ)
    (hp : 1 ≤ p) (hne : closes ≠ []) :
    ewmAdjustFalse (2 / (p + 1 : ℚ)) (closes.map PFloat.finite)
        = (emaSpec (2 / (p + 1 : ℚ)) closes).map PFloat.finite
    ∧ (ewmAdjustFalse (2 / (p + 1 : ℚ)) (closes.map PFloat.finite)).length
        = closes.length
    ∧ (emaSpec (2 / (p + 1 : ℚ)) closes).getD 0 0 = closes.getD 0 0
    ∧ ∀ i, 1 ≤ i → i < closes.length →
        (emaSpec (2 / (p + 1 : ℚ)) closes).getD i 0
          = (closes.getD i 0 - (emaSpec (2 / (p + 1 : ℚ)) closes).getD (i - 1) 0)
              * (2 / (p + 1 : ℚ))
            + (emaSpec (2 / (p + 1 : ℚ)) closes).getD (i - 1) 0 := by
  refine ⟨ewm_eq_emaSpec _ _, ?_, ?_, ?_⟩
  · rw [ewm_eq_emaSpec, List.length_map, emaSpec_length]
  · cases closes with
    | nil => exact absurd rfl hne
    | cons c cs => simp [emaSpec]
  · intro i hi hlen
    exact emaSpec_getD _ _ _ hi hlen

theorem ema_satisfies_spec_recursion_witness :
    (1 ≤ 34 ∧ ([(1 : ℚ), 2] ≠ []))
    ∧ (ewmAdjustFalse (2 / ((34 : ℕ) + 1 : ℚ)) ([(1 : ℚ), 2].map PFloat.finite)
          = (emaSpec (2 / ((34 : ℕ) + 1 : ℚ)) [(1 : ℚ), 2]).map PFloat.finite
        ∧ (ewmAdjustFalse (2 / ((34 : ℕ) + 1 : ℚ)) ([(1 : ℚ), 2].map PFloat.finite)).length
            = [(1 : ℚ), 2].length
        ∧ (emaSpec (2 / ((34 : ℕ) + 1 : ℚ)) [(1 : ℚ), 2]).getD 0 0 = [(1 : ℚ), 2].getD 0 0
        ∧ ∀ i, 1 ≤ i → i < [(1 : ℚ), 2].length →
            (emaSpec (2 / ((34 : ℕ) + 1 : ℚ)) [(1 : ℚ), 2]).getD i 0
              = ([(1 : ℚ), 2].getD i 0
                  - (emaSpec (2 / ((34 : ℕ) + 1 : ℚ)) [(1 : ℚ), 2]).getD (i - 1) 0)
                  * (2 / ((34 : ℕ) + 1 : ℚ))
                + (emaSpec (2 / ((34 : ℕ) + 1 : ℚ)) [(1 : ℚ), 2]).getD (i - 1) 0) :=
  ⟨⟨by decide, by simp⟩,
   ema_satisfies_spec_recursion [(1 : ℚ), 2] 34 (by decide) (by simp)⟩

/-- Claim C5 (amended): for periods at least 2 the smoothing factor lies
strictly inside the unit interval, so at every index `i ≥ 1` the EMA value
lies strictly between the previous EMA value and the new close whenever
the two differ (stated as the two strict implications, one per sign); the
first conjunct ties the spec-side values to the pandas EWM output.  For
period 1 the factor is 1 and the statement fails, see the counterexample. -/
theorem ema_strictly_between (closes : List ℚ) (p i : ℕ)
    (hp : 2 ≤ p) (hi : 1 ≤ i) (hlen : i < closes.length) :
    ewmAdjustFalse (2 / (p + 1 : ℚ)) (closes.map PFloat.finite)
        = (emaSpec (2 / (p + 1 : ℚ)) closes).map PFloat.finite
    ∧ ((emaSpec (2 / (p + 1 : ℚ)) closes).getD (i - 1) 0 < closes.getD i 0 →
        (emaSpec (2 / (p + 1 : ℚ)) closes).getD (i - 1) 0
            < (emaSpec (2 / (p + 1 : ℚ)) closes).getD i 0
        ∧ (emaSpec (2 / (p + 1 : ℚ)) closes).getD i 0 < closes.getD i 0)
    ∧ (closes.getD i 0 < (emaSpec (2 / (p + 1 : ℚ)) closes).getD (i - 1) 0 →
        closes.getD i 0 < (emaSpec (2 / (p + 1 : ℚ)) closes).getD i 0
        ∧ (emaSpec (2 / (p + 1 : ℚ)) closes).getD i 0
            < (emaSpec (2 / (p + 1 : ℚ)) closes).getD (i - 1) 0) := by
  have hp1 : (0 : ℚ) < (p : ℚ) + 1 := by positivity
  have hα0 : 0 < 2 / (p + 1 : ℚ) := by positivity
  have hα1 : 2 / (p + 1 : ℚ) < 1 := by
    rw [div_lt_one hp1]
    have h2p : (2 : ℚ) ≤ (p : ℚ) := by exact_mod_cast hp
    linarith
  have hrec := emaSpec_getD (2 / (p + 1 : ℚ)) closes i hi hlen
  refine ⟨ewm_eq_emaSpec _ _, ?_, ?_⟩
  · intro hlt
    rw [hrec]
    have h1 := mul_pos (sub_pos.mpr hlt) hα0
    have h2 := mul_pos (sub_pos.mpr hlt) (sub_pos.mpr hα1)
    constructor <;> nlinarith [h1, h2]
  · intro hlt
    rw [hrec]
    have h1 := mul_pos (sub_pos.mpr hlt) hα0
    have h2 := mul_pos (sub_pos.mpr hlt) (sub_pos.mpr hα1)
    constructor <;> nlinarith [h1, h2]

theorem ema_strictly_between_witness :
    (2 ≤ 2 ∧ 1 ≤ 1 ∧ 1 < [(1 : ℚ), 2].length)
    ∧ (ewmAdjustFalse (2 / ((2 : ℕ) + 1 : ℚ)) ([(1 : ℚ), 2].map PFloat.finite)
          = (emaSpec (2 / ((2 : ℕ) + 1 : ℚ)) [(1 : ℚ), 2]).map PFloat.finite
        ∧ ((emaSpec (2 / ((2 : ℕ) + 1 : ℚ)) [(1 : ℚ), 2]).getD 0 0 < [(1 : ℚ), 2].getD 1 0 →
            (emaSpec (2 / ((2 : ℕ) + 1 : ℚ)) [(1 : ℚ), 2]).getD 0 0
                < (emaSpec (2 / ((2 : ℕ) + 1 : ℚ)) [(1 : ℚ), 2]).getD 1 0
            ∧ (emaSpec (2 / ((2 : ℕ) + 1 : ℚ)) [(1 : ℚ), 2]).getD 1 0
                < [(1 : ℚ), 2].getD 1 0)
        ∧ ([(1 : ℚ), 2].getD 1 0 < (emaSpec (2 / ((2 : ℕ) + 1 : ℚ)) [(1 : ℚ), 2]).getD 0 0 →
            [(1 : ℚ), 2].getD 1 0 < (emaSpec (2 / ((2 : ℕ) + 1 : ℚ)) [(1 : ℚ), 2]).getD 1 0
            ∧ (emaSpec (2 / ((2 : ℕ) + 1 : ℚ)) [(1 : ℚ), 2]).getD 1 0
                < (emaSpec (2 / ((2 : ℕ) + 1 : ℚ)) [(1 : ℚ), 2]).getD 0 0)) :=
  ⟨⟨by decide, by decide, by decide⟩,
   ema_strictly_between [(1 : ℚ), 2] 2 1 (by decide) (by decide) (by decide)⟩

/-- Claim C5 counterexample: at period 1 the smoothing factor is
`2/(1+1) = 1`, so on closes `[0, 1]` the EMA at index 1 equals the close 1
itself — the closes differ from the previous EMA 0, yet the value is not
strictly between them. -/
theorem ema_not_between_for_period_one :
    ewmAdjustFalse (2 / ((1 : ℕ) + 1 : ℚ)) (List.map PFloat.finite [0, 1])
        = [PFloat.finite 0, PFloat.finite 1]
    ∧ [(0 : ℚ), 1].getD 1 0 ≠ (emaSpec (2 / ((1 : ℕ) + 1 : ℚ)) [0, 1]).getD 0 0
    ∧ ¬ ((emaSpec (2 / ((1 : ℕ) + 1 : ℚ)) [0, 1]).getD 0 0 < [(0 : ℚ), 1].getD 1 0 →
          (emaSpec (2 / ((1 : ℕ) + 1 : ℚ)) [0, 1]).getD 0 0
              < (emaSpec (2 / ((1 : ℕ) + 1 : ℚ)) [0, 1]).getD 1 0
          ∧ (emaSpec (2 / ((1 : ℕ) + 1 : ℚ)) [0, 1]).getD 1 0 < [(0 : ℚ), 1].getD 1 0) :=
  of_decide_eq_true (by with_unfolding_all rfl)

theorem filterReplicate {α : Type} (p : α → Bool) (n : ℕ) (a : α) :
    List.filter p (List.replicate n a) = if p a then List.replicate n a else [] := by
  induction n with
  | zero => simp
  | succ n ih =>
    rw [List.replicate_succ, List.filter_cons, ih]
    by_cases h : p a <;> simp [h, List.replicate_succ]

/-- Claim C7 (amended): the selector returns at most 500 symbols, every
returned symbol ends in "USDT", the sorted prefix is a permutation of the
coercion-successful entries while the NaN-volume entries sit after them in
original order, and whenever at least 500 entries coerce successfully the
500 selected symbols are drawn entirely from the coercion-successful part
(the claim's own guard, `limit < filtered count`, is weaker and fails, see
the counterexample). -/
theorem selector_bounds (tickers : List Ticker) :
    (get_top_500_usdt_pairs_by_volume tickers).length ≤ 500
    ∧ (∀ s ∈ get_top_500_usdt_pairs_by_volume tickers, strEndsWith s "USDT" = true)
    ∧ ((List.insertionSort volLE ((okEntries tickers).reverse)).reverse).Perm
        (okEntries tickers)
    ∧ (∀ t ∈ (List.insertionSort volLE ((okEntries tickers).reverse)).reverse,
        t.volume.isSome = true)
    ∧ (∀ t ∈ badEntries tickers, t.volume.isNone = true)
    ∧ (500 ≤ (okEntries tickers).length →
        get_top_500_usdt_pairs_by_volume tickers
          = (((List.insertionSort volLE ((okEntries tickers).reverse)).reverse).take
              500).map (fun t => t.symbol)) := by
  have hperm : ((List.insertionSort volLE ((okEntries tickers).reverse)).reverse).Perm
      (okEntries tickers) :=
    ((List.reverse_perm _).trans (List.perm_insertionSort _ _)).trans
      (List.reverse_perm _)
  refine ⟨?_, ?_, hperm, ?_, ?_, ?_⟩
  · rw [get_top_500_usdt_pairs_by_volume, List.length_map, List.length_take]
    exact min_le_left _ _
  · intro s hs
    rw [get_top_500_usdt_pairs_by_volume, List.mem_map] at hs
    obtain ⟨t, ht, rfl⟩ := hs
    have ht2 := List.mem_of_mem_take ht
    rw [sortedTickers, List.mem_append] at ht2
    rcases ht2 with h | h
    · have h3 := List.mem_filter.mp (hperm.subset h)
      exact (List.mem_filter.mp h3.1).2
    · exact (List.mem_filter.mp (List.mem_filter.mp h).1).2
  · intro t ht
    exact (List.mem_filter.mp (hperm.subset ht)).2
  · intro t ht
    exact (List.mem_filter.mp ht).2
  · intro hlen
    rw [get_top_500_usdt_pairs_by_volume, sortedTickers, List.take_append_of_le_length]
    rwa [List.length_reverse, List.length_insertionSort, List.length_reverse]

/-- Claim C7 counterexample: 501 tickers, all ending in "USDT" and all with
unparseable volume.  The filtered count 501 exceeds the limit 500, yet the
selector returns 500 NaN-volume symbols — "never selected when limit is
less than the filtered count" is false; NaN entries are only displaced when
enough coercion-successful entries exist. -/
theorem nan_selected_when_filtered_exceeds_limit :
    500 < (usdtFiltered (List.replicate 501 tickNaN)).length
    ∧ tickNaN ∈ usdtFiltered (List.replicate 501 tickNaN)
    ∧ tickNaN.volume = none
    ∧ tickNaN.symbol ∈ get_top_500_usdt_pairs_by_volume (List.replicate 501 tickNaN) := by
  have hp : (fun t : Ticker => strEndsWith t.symbol "USDT") tickNaN = true := by decide
  have h1 : usdtFiltered (List.replicate 501 tickNaN) = List.replicate 501 tickNaN := by
    rw [usdtFiltered, filterReplicate, if_pos hp]
  have h2 : okEntries (List.replicate 501 tickNaN) = [] := by
    rw [okEntries, h1, filterReplicate, if_neg]
    decide
  have h3 : badEntries (List.replicate 501 tickNaN) = List.replicate 501 tickNaN := by
    rw [badEntries, h1, filterReplicate, if_pos]
    decide
  have h4 : get_top_500_usdt_pairs_by_volume (List.replicate 501 tickNaN)
      = List.replicate 500 "AUSDT" := by
    rw [get_top_500_usdt_pairs_by_volume, sortedTickers, h2, h3]
    simp [List.take_replicate, List.map_replicate, tickNaN]
  refine ⟨?_, ?_, rfl, ?_⟩
  · rw [h1, List.length_replicate]
    norm_num
  · rw [h1]
    exact List.mem_replicate.mpr ⟨by norm_num, rfl⟩
  · rw [h4]
    exact List.mem_replicate.mpr ⟨by norm_num, rfl⟩

theorem filter_key_orderedInsert (c : ℚ) (a : Ticker) (l : List Ticker) :
    List.filter (fun t => decide (t.volume = some c)) (List.orderedInsert volLE a l)
      = if a.volume = some c
        then a :: List.filter (fun t => decide (t.volume = some c)) l
        else List.filter (fun t => decide (t.volume = some c)) l := by
  induction l with
  | nil =>
    by_cases ha : a.volume = some c <;> simp [List.orderedInsert, ha]
  | cons b t ih =>
    rw [List.orderedInsert]
    by_cases hab : volLE a b
    · rw [if_pos hab]
      by_cases ha : a.volume = some c <;> simp [ha, List.filter_cons]
    · rw [if_neg hab, List.filter_cons, ih]
      by_cases ha : a.volume = some c
      · have hb : ¬ b.volume = some c := by
          intro hb
          exact hab (by simp [volLE, ha, hb])
        simp [ha, hb]
      · by_cases hb : b.volume = some c <;> simp [ha, hb, List.filter_cons]

theorem filter_key_insertionSort (c : ℚ) (l : List Ticker) :
    List.filter (fun t => decide (t.volume = some c)) (List.insertionSort volLE l)
      = List.filter (fun t => decide (t.volume = some c)) l := by
  induction l with
  | nil => rfl
  | cons a l ih =>
    rw [List.insertionSort, filter_key_orderedInsert, ih, List.filter_cons]
    by_cases ha : a.volume = some c <;> simp [ha]

/-- Claim C8: the descending sort breaks ties stably by original input
order.  Pandas nargsort reverses the non-NaN entries before its stable
ascending argsort and reverses the result again, so for any coerced volume
value the entries carrying it appear in the sorted sequence exactly in
input order; likewise the coercion-failed (NaN volume) entries keep input
order at the end. -/
theorem equal_volume_ties_keep_original_order (tickers : List Ticker) (c : ℚ) :
    (sortedTickers tickers).filter (fun t => decide (t.volume = some c))
      = (usdtFiltered tickers).filter (fun t => decide (t.volume = some c))
    ∧ (sortedTickers tickers).filter (fun t => t.volume.isNone)
      = (usdtFiltered tickers).filter (fun t => t.volume.isNone) := by
  constructor
  · rw [sortedTickers, List.filter_append]
    have hbad : (badEntries tickers).filter (fun t => decide (t.volume = some c)) = [] := by
      rw [List.filter_eq_nil_iff]
      intro t ht
      have hn := (List.mem_filter.mp ht).2
      simp [Option.isNone_iff_eq_none.mp hn]
    rw [hbad, List.append_nil, List.filter_reverse, filter_key_insertionSort,
      List.filter_reverse, List.reverse_reverse]
    rw [okEntries, List.filter_filter]
    apply List.filter_congr
    intro t ht
    cases hv : t.volume <;> simp [hv]
  · rw [sortedTickers, List.filter_append]
    have hperm : ((List.insertionSort volLE ((okEntries tickers).reverse)).reverse).Perm
        (okEntries tickers) :=
      ((List.reverse_perm _).trans (List.perm_insertionSort _ _)).trans
        (List.reverse_perm _)
    have hok : ((List.insertionSort volLE ((okEntries tickers).reverse)).reverse).filter
        (fun t => t.volume.isNone) = [] := by
      rw [List.filter_eq_nil_iff]
      intro t ht
      have hs := (List.mem_filter.mp (hperm.subset ht)).2
      cases hv : t.volume with
      | none => rw [hv] at hs; simp at hs
      | some v => simp [hv]
    have hfix : (badEntries tickers).filter (fun t => t.volume.isNone)
        = badEntries tickers := by
      rw [List.filter_eq_self]
      intro t ht
      exact (List.mem_filter.mp ht).2
    rw [hok, List.nil_append, hfix]
    rfl

theorem process_symbol_coin (s : String) (df : List PRow) (r : OutRow)
    (h : process_symbol s df = some r) : r.COIN = s := by
  simp only [process_symbol] at h
  split at h
  · exact absurd h (by simp)
  · split at h
    · exact absurd h (by simp)
    · split at h
      case _ l34 l102 h34 h102 =>
        split at h
        · obtain rfl := (Option.some.injEq _ _).mp h
          rfl
        · exact absurd h (by simp)
      case _ => exact absurd h (by simp)

theorem countP_filterMap_coin (f : String → Option OutRow)
    (hf : ∀ s r, f s = some r → r.COIN = s) (s : String) :
    ∀ syms : List String,
    (syms.filterMap f).countP (fun r => r.COIN == s) ≤ syms.countP (fun x => x == s) := by
  intro syms
  induction syms with
  | nil => simp
  | cons a t ih =>
    rw [List.filterMap_cons]
    cases hfa : f a with
    | none =>
      rw [List.countP_cons]
      exact le_trans ih (Nat.le_add_right _ _)
    | some r =>
      rw [List.countP_cons, List.countP_cons, hf a r hfa]
      by_cases hs : a == s <;> simp [hs] <;> omega

/-- Claim C10: a pass appends at most one row per symbol of the selected
universe, so the table never has more rows than the universe, hence never
more than 500; and for any symbol name, the number of its rows is bounded
by the number of its occurrences in the universe. -/
theorem table_row_count_bounded (tickers : List Ticker)
    (hist : String → List KlineRow) :
    (fetch_and_process_data tickers hist).length
        ≤ (get_top_500_usdt_pairs_by_volume tickers).length
    ∧ (fetch_and_process_data tickers hist).length ≤ 500
    ∧ ∀ s : String,
        (fetch_and_process_data tickers hist).countP (fun r => r.COIN == s)
          ≤ (get_top_500_usdt_pairs_by_volume tickers).countP (fun x => x == s) := by
  have hlen : (fetch_and_process_data tickers hist).length
      ≤ (get_top_500_usdt_pairs_by_volume tickers).length := by
    rw [fetch_and_process_data, List.length_map]
    exact List.length_filterMap_le _ _
  have h500 : (get_top_500_usdt_pairs_by_volume tickers).length ≤ 500 := by
    rw [get_top_500_usdt_pairs_by_volume, List.length_map, List.length_take]
    exact min_le_left _ _
  refine ⟨hlen, le_trans hlen h500, ?_⟩
  intro s
  rw [fetch_and_process_data, List.countP_map]
  have hcoin : ∀ sym r,
      process_symbol sym (mkFrame (get_historical_data (hist sym))) = some r →
      r.COIN = sym := fun sym r h => process_symbol_coin sym _ r h
  have := countP_filterMap_coin
    (fun sym => process_symbol sym (mkFrame (get_historical_data (hist sym))))
    hcoin s (get_top_500_usdt_pairs_by_volume tickers)
  refine le_trans (le_of_eq ?_) this
  apply List.countP_congr
  intro r hr
  rfl

theorem getq_preserved (h : List (List PRow)) (i : ℕ) (hi : i < h.length)
    (d e f g u : List PRow) :
    (((((h ++ [d]).set h.length e) ++ [f]).set (h.length + 1) g).set
        (h.length + 1) u)[i]? = h[i]? := by
  have h1 : ((h ++ [d]).set h.length e).length = h.length + 1 := by
    rw [List.length_set, List.length_append]
    rfl
  rw [List.getElem?_set_ne (by omega), List.getElem?_set_ne (by omega),
    List.getElem?_append_left (by omega), List.getElem?_set_ne (by omega),
    List.getElem?_append_left hi]

/-- Claim C9: both EMA stages leave the caller's frame untouched — line 80
copies into a fresh slot and every later write of the stage hits the copy
or the fresh `dropna` result, never slot `i`. -/
theorem ema_stages_leave_input_unchanged (h : Heap) (i : ℕ) (hi : i < h.length) :
    ((calculate_ema_and_breakout_heap h i).1)[i]? = h[i]?
    ∧ ((calculate_ema102_and_breakout_heap h i).1)[i]? = h[i]? := by
  constructor
  · simp only [calculate_ema_and_breakout_heap, List.length_set, List.length_append,
      List.length_singleton]
    exact getq_preserved h i hi _ _ _ _ _
  · simp only [calculate_ema102_and_breakout_heap, List.length_set, List.length_append,
      List.length_singleton]
    exact getq_preserved h i hi _ _ _ _ _

theorem ema_stages_leave_input_unchanged_witness :
    0 < ([[({ close := PFloat.finite 1 } : PRow)]] : Heap).length
    ∧ (((calculate_ema_and_breakout_heap [[{ close := PFloat.finite 1 }]] 0).1)[0]?
          = ([[({ close := PFloat.finite 1 } : PRow)]] : Heap)[0]?
        ∧ ((calculate_ema102_and_breakout_heap [[{ close := PFloat.finite 1 }]] 0).1)[0]?
          = ([[({ close := PFloat.finite 1 } : PRow)]] : Heap)[0]?) :=
  ⟨by decide,
   ema_stages_leave_input_unchanged [[{ close := PFloat.finite 1 }]] 0 (by decide)⟩
